import Mathlib

set_option autoImplicit false

/-!
Shallow embedding of the core of the `what-did-you-get-done-this-week`
email-journaling service (Go), for checking its natural-language
specification.  Each definition is translated from the Go source:

* `internal/core/parser.go`      — reply command grammar, pause durations
* `internal/core/preferences.go` — verification-reply preference parsing
* `internal/core/service.go`     — reply handling, entry upsert, scheduling query
* `internal/email/service.go`    — outbox processing and status updates
* `cmd/scheduler/main.go`        — hourly daily-prompt trigger

Strings are modelled as `List Char` (inputs are ASCII in all claims); Go
`time.Duration` values are `Int` nanoseconds with explicit 64-bit wrap where
the Go code can overflow; timestamps are abstract `Int` instants.  External
collaborators (the system time-zone database, the SES transport, the fallible
Postgres statements) are modelled as explicit parameters, so every branch the
Go code can take is a branch of the Lean definitions.
-/

namespace WDYGD

/-! ### Character and string helpers (Go `strings` / `unicode`, ASCII range) -/

/-- Go `unicode.IsSpace` restricted to ASCII: space, \t, \n, \v, \f, \r.
Used by `strings.TrimSpace`. -/
def goIsSpace (c : Char) : Bool :=
  c == ' ' || c == '\t' || c == '\n' || c == '\x0b' || c == '\x0c' || c == '\r'

/-- The Go `regexp` character class `\s`, i.e. `[\t\n\f\r ]` (no `\v`). -/
def reIsSpace (c : Char) : Bool :=
  c == ' ' || c == '\t' || c == '\n' || c == '\x0c' || c == '\r'

/-- ASCII lower-casing of one character (Go `strings.ToLower` on the ASCII
range), written as an explicit table. -/
def lowerChar (c : Char) : Char :=
  match c with
  | 'A' => 'a' | 'B' => 'b' | 'C' => 'c' | 'D' => 'd' | 'E' => 'e'
  | 'F' => 'f' | 'G' => 'g' | 'H' => 'h' | 'I' => 'i' | 'J' => 'j'
  | 'K' => 'k' | 'L' => 'l' | 'M' => 'm' | 'N' => 'n' | 'O' => 'o'
  | 'P' => 'p' | 'Q' => 'q' | 'R' => 'r' | 'S' => 's' | 'T' => 't'
  | 'U' => 'u' | 'V' => 'v' | 'W' => 'w' | 'X' => 'x' | 'Y' => 'y'
  | 'Z' => 'z'
  | c => c

/-- ASCII lower-casing of a character list. -/
def lowerL (l : List Char) : List Char := l.map lowerChar

/-- Go `strings.TrimSpace` on a character list. -/
def trimGoL (l : List Char) : List Char :=
  ((l.dropWhile goIsSpace).reverse.dropWhile goIsSpace).reverse

/-- Go `strings.TrimSpace` on a `String`. -/
def trimGo (s : String) : String := String.mk (trimGoL s.data)

/-- Case-insensitive prefix test: `pat` (given already lower-case) is a
prefix of `s` up to ASCII case. -/
def prefixCIL : List Char → List Char → Bool
  | [], _ => true
  | _ :: _, [] => false
  | p :: ps, c :: cs => p == lowerChar c && prefixCIL ps cs

/-- Substring test on character lists (Go `strings.Contains`). -/
def containsSubL (needle : List Char) : List Char → Bool
  | [] => needle.isPrefixOf ([] : List Char)
  | c :: cs => needle.isPrefixOf (c :: cs) || containsSubL needle cs

/-- `internal/core/service.go` `contains`: nonempty text and substring, and
case-insensitive substring containment. -/
def contains (text substr : String) : Bool :=
  decide (0 < text.length) && decide (0 < substr.length) &&
    containsSubL (lowerL substr.data) (lowerL text.data)

/-- Go `strings.Split(s, "\n")` on a character list. -/
def splitNl : List Char → List (List Char)
  | [] => [[]]
  | c :: cs =>
    if c = '\n' then [] :: splitNl cs
    else
      match splitNl cs with
      | [] => [[c]]
      | l :: ls => (c :: l) :: ls

/-- Go `strings.Join(lines, "\n")` on character lists. -/
def joinNl : List (List Char) → List Char
  | [] => []
  | [l] => l
  | l :: ls => l ++ '\n' :: joinNl ls

/-! ### `cleanEmailContent` (`internal/core/parser.go`) -/

/-- The signature / header prefixes skipped by `cleanEmailContent`. -/
def skipLinePrefixes : List (List Char) :=
  ["--".data, "Sent from".data, "From:".data, "To:".data,
   "Subject:".data, "Date:".data, ">".data]

/-- The per-line loop of `cleanEmailContent`: trim each line, skip empties and
signature/header lines, stop at an `On ... wrote:` quoting marker. -/
def cleanLines : List (List Char) → List (List Char)
  | [] => []
  | l :: ls =>
    let t := trimGoL l
    if t = [] then cleanLines ls
    else if skipLinePrefixes.any (fun p => p.isPrefixOf t) then cleanLines ls
    else if "On ".data.isPrefixOf t && containsSubL "wrote:".data t then []
    else t :: cleanLines ls

/-- `cleanEmailContent`: split on newlines, filter boilerplate, re-join. -/
def cleanEmailContent (content : List Char) : List Char :=
  joinNl (cleanLines (splitNl content))

/-! ### Pause-duration sub-grammar (`parsePauseDuration`) -/

/-- The three duration units of the regexp
`(\d+)\s*(day|days|week|weeks|month|months)`. -/
inductive DurUnit where
  | day
  | week
  | month
deriving DecidableEq

/-- The unit alternation of the regexp, tried in source order at a fixed
position (the plural branches are shadowed by their singular prefixes, with
the same multiplier, exactly as in Go leftmost-first alternation). -/
def matchUnitAt (l : List Char) : Option DurUnit :=
  if "day".data.isPrefixOf l then some .day
  else if "days".data.isPrefixOf l then some .day
  else if "week".data.isPrefixOf l then some .week
  else if "weeks".data.isPrefixOf l then some .week
  else if "month".data.isPrefixOf l then some .month
  else if "months".data.isPrefixOf l then some .month
  else none

/-- Fuelled scanner for the leftmost match of
`(\d+)\s*(day|days|week|weeks|month|months)`: scan for a digit run, skip
`\s*`, try the unit alternation; on failure continue after the run (positions
inside a failed run or its trailing spaces cannot start a match, so this is
the Go leftmost-match semantics).  The fuel only forces structural recursion;
`l.length` fuel is always enough since every step strictly shortens the
list. -/
def scanNumUnitF : Nat → List Char → Option (List Char × DurUnit)
  | 0, _ => none
  | _ + 1, [] => none
  | fuel + 1, c :: rest =>
    if c.isDigit then
      let run := c :: rest.takeWhile Char.isDigit
      let r2 := rest.dropWhile Char.isDigit
      match matchUnitAt (r2.dropWhile reIsSpace) with
      | some u => some (run, u)
      | none => scanNumUnitF fuel r2
    else scanNumUnitF fuel rest

/-- Leftmost match of `(\d+)\s*(day|days|week|weeks|month|months)`. -/
def scanNumUnit (l : List Char) : Option (List Char × DurUnit) :=
  scanNumUnitF l.length l

/-- Numeric value of a digit run (what `strconv.Atoi` computes). -/
def natOfDigits (l : List Char) : Nat :=
  l.foldl (fun a c => a * 10 + (c.toNat - 48)) 0

/-- `strconv.Atoi` on an all-digit string on a 64-bit build: out-of-range
values (beyond `math.MaxInt64`) return an error. -/
def goAtoi (l : List Char) : Option Nat :=
  let v := natOfDigits l
  if v ≤ 9223372036854775807 then some v else none

/-- Two-complement wrap of an `Int` into the `int64` range (Go arithmetic). -/
def wrap64 (x : Int) : Int :=
  (x + 9223372036854775808) % 18446744073709551616 - 9223372036854775808

/-- Go `int64` multiplication (`time.Duration` products wrap silently). -/
def i64mul (a b : Int) : Int := wrap64 (a * b)

/-- `time.Hour` in nanoseconds. -/
def nanosPerHour : Int := 3600000000000

/-- `parsePauseDuration` (`internal/core/parser.go`): lower-case and trim,
match the literal-phrase switch, otherwise search for the
`(\d+)\s*(day|days|week|weeks|month|months)` pattern and multiply
(`time.Duration(number) * k * 24 * time.Hour`, left-associated `int64`
products).  `none` is the Go non-nil error. -/
def parsePauseDuration (s : String) : Option Int :=
  let t := String.mk (lowerL (trimGoL s.data))
  if t = "today" then some 86400000000000
  else if t = "tomorrow" then some 86400000000000
  else if t = "this week" then some 604800000000000
  else if t = "1 week" then some 604800000000000
  else if t = "next week" then some 604800000000000
  else if t = "this month" then some 2592000000000000
  else if t = "1 month" then some 2592000000000000
  else if t = "next month" then some 2592000000000000
  else
    match scanNumUnit t.data with
    | none => none
    | some (digits, u) =>
      match goAtoi digits with
      | none => none
      | some n =>
        match u with
        | .day => some (i64mul (i64mul (n : Int) 24) nanosPerHour)
        | .week => some (i64mul (i64mul (i64mul (n : Int) 7) 24) nanosPerHour)
        | .month => some (i64mul (i64mul (i64mul (n : Int) 30) 24) nanosPerHour)

/-! ### Command-tag grammar (`ParseEmailReply`, `internal/core/parser.go`) -/

/-- Opening tag `<name>`. -/
def tagOpen (name : List Char) : List Char := '<' :: (name ++ ['>'])

/-- Closing tag `</name>`. -/
def tagClose (name : List Char) : List Char := '<' :: '/' :: (name ++ ['>'])

/-- Fuelled `FindAllStringSubmatch` for `<name>([^<]+)</name>`: at each
position try the literal open tag, a nonempty run of non-`<` characters and
the literal close tag; on success capture the run and continue after the
match, otherwise advance one character. -/
def findAllTagF (name : List Char) : Nat → List Char → List (List Char)
  | 0, _ => []
  | _ + 1, [] => []
  | fuel + 1, c :: rest =>
    let s := c :: rest
    if (tagOpen name).isPrefixOf s then
      let after := s.drop (tagOpen name).length
      let txt := after.takeWhile (fun ch => ch ≠ '<')
      if !txt.isEmpty && (tagClose name).isPrefixOf (after.drop txt.length) then
        txt :: findAllTagF name fuel (after.drop (txt.length + (tagClose name).length))
      else findAllTagF name fuel rest
    else findAllTagF name fuel rest

/-- All captures of `<name>([^<]+)</name>`, leftmost, non-overlapping. -/
def findAllTag (name : List Char) (l : List Char) : List (List Char) :=
  findAllTagF name l.length l

/-- Fuelled `ReplaceAllString(_, "")` for `<name>([^<]+)</name>`: matched
spans are dropped, unmatched characters kept. -/
def removeAllTagF (name : List Char) : Nat → List Char → List Char
  | 0, l => l
  | _ + 1, [] => []
  | fuel + 1, c :: rest =>
    let s := c :: rest
    if (tagOpen name).isPrefixOf s then
      let after := s.drop (tagOpen name).length
      let txt := after.takeWhile (fun ch => ch ≠ '<')
      if !txt.isEmpty && (tagClose name).isPrefixOf (after.drop txt.length) then
        removeAllTagF name fuel (after.drop (txt.length + (tagClose name).length))
      else c :: removeAllTagF name fuel rest
    else c :: removeAllTagF name fuel rest

/-- `ReplaceAllString` of `<name>([^<]+)</name>` with the empty string. -/
def removeAllTag (name : List Char) (l : List Char) : List Char :=
  removeAllTagF name l.length l

/-- Go `Command` struct (string-tagged, as in the source). -/
structure Command where
  type : String
  value : String
  duration : Option Int
deriving DecidableEq

def CommandTypePause : String := "pause"
def CommandTypeProject : String := "project"
def CommandTypeEntry : String := "entry"

/-- Go `ParsedReply` struct (`Error` modelled as its message text). -/
structure ParsedReply where
  content : String
  commands : List Command
  projectTag : Option String
  isValidated : Bool
  errMsg : Option String
deriving DecidableEq

/-- The pause-command loop of `ParseEmailReply`: builds a `pause` command per
capture, stopping at the first capture whose duration does not parse (the
returned option is that failing capture; commands before it are kept, as in
the Go early return). -/
def buildPauseCommands : List (List Char) → List Command × Option (List Char)
  | [] => ([], none)
  | cap :: caps =>
    match parsePauseDuration (String.mk cap) with
    | none => ([], some cap)
    | some d =>
      let r := buildPauseCommands caps
      (⟨CommandTypePause, String.mk cap, some d⟩ :: r.1, r.2)

/-- `ParseEmailReply` (`internal/core/parser.go`): trim, strip boilerplate,
extract `pause`/`project`/`entry` tag commands, strip the tags from the
content, fall back to an implicit whole-content entry, and flag empty
replies as not validated. -/
def ParseEmailReply (rawContent : String) : ParsedReply :=
  let content := cleanEmailContent (trimGoL rawContent.data)
  match buildPauseCommands (findAllTag "pause".data content) with
  | (cs, some bad) =>
    { content := String.mk content, commands := cs, projectTag := none,
      isValidated := false,
      errMsg := some ("invalid pause duration: " ++ String.mk bad) }
  | (pauseCmds, none) =>
    let projectCaps := (findAllTag "project".data content).map trimGoL
    let projectCmds : List Command :=
      projectCaps.map (fun p => ⟨CommandTypeProject, String.mk p, none⟩)
    let projTag := projectCaps.getLast?.map String.mk
    let entryCmds : List Command :=
      (findAllTag "entry".data content).map
        (fun e => ⟨CommandTypeEntry, String.mk (trimGoL e), none⟩)
    let cmds := pauseCmds ++ projectCmds ++ entryCmds
    let stripped :=
      trimGoL (removeAllTag "entry".data
        (removeAllTag "project".data (removeAllTag "pause".data content)))
    let cmds2 :=
      if !stripped.isEmpty && cmds.isEmpty
      then [⟨CommandTypeEntry, String.mk stripped, none⟩] else cmds
    if stripped.isEmpty && cmds2.isEmpty then
      { content := String.mk stripped, commands := cmds2, projectTag := projTag,
        isValidated := false,
        errMsg := some "no meaningful content found in reply" }
    else
      { content := String.mk stripped, commands := cmds2, projectTag := projTag,
        isValidated := true, errMsg := none }

/-- `NeedsVerification` (`internal/core/parser.go`): signup-intent keyword
match against the fixed vocabulary. -/
def NeedsVerification (s : String) : Bool :=
  ["verify", "verification", "confirm", "confirmation", "activate",
   "activation", "sign up", "signup", "start", "begin"].any
    (fun p => containsSubL p.data (lowerL s.data))

/-! ### Preference parsing (`internal/core/preferences.go`) -/

/-- Not a newline character (the `[^\n\r]` class). -/
def nonNL (c : Char) : Bool := !(c == '\n' || c == '\r')

/-- The `\s*([^\n\r]+)` tail of every preference label regexp, applied to the
text after the colon.  Greedy `\s*` first; if everything after the colon is
`\s` the engine backtracks and the capture is the last non-newline whitespace
character (it trims to the empty string either way); if no non-newline
character exists the match at this position fails (`none`). -/
def afterColonCapture (r : List Char) : Option (List Char) :=
  let r2 := r.dropWhile reIsSpace
  if !r2.isEmpty then some (r2.takeWhile nonNL)
  else
    match r.reverse.dropWhile (fun c => c == '\n' || c == '\r') with
    | [] => none
    | c :: _ => some [c]

/-- Leftmost case-insensitive match of `name:\s*([^\n\r]+)`
(the `nameRegex`). -/
def findNameCapF : List Char → Option (List Char)
  | [] => none
  | c :: rest =>
    let s := c :: rest
    if prefixCIL "name:".data s then
      match afterColonCapture (s.drop 5) with
      | some cap => some cap
      | none => findNameCapF rest
    else findNameCapF rest

/-- One position of a `(?i)(lit1|lit2|...)[^:]*:\s*([^\n\r]+)` regexp: try
each literal alternative, then `[^:]*` runs to the first colon (it cannot
cross one), then the common capture tail. -/
def tryLabelAlts (alts : List (List Char)) (s : List Char) : Option (List Char) :=
  alts.findSome? (fun lit =>
    if prefixCIL lit s then
      match (s.drop lit.length).dropWhile (fun ch => ch ≠ ':') with
      | ':' :: r2 => afterColonCapture r2
      | _ => none
    else none)

/-- Leftmost case-insensitive match of `(alts)[^:]*:\s*([^\n\r]+)` (the
`timezoneRegex`, `timeRegex` and `projectRegex` shapes). -/
def findLabelAltCapF (alts : List (List Char)) : List Char → Option (List Char)
  | [] => none
  | c :: rest =>
    match tryLabelAlts alts (c :: rest) with
    | some cap => some cap
    | none => findLabelAltCapF alts rest

/-- Numeric value of an ASCII digit. -/
def digitVal (c : Char) : Nat := c.toNat - 48

/-- Go `time` package `getnum` with `fixed = false`: one or two digits. -/
def getnum2 : List Char → Option (Nat × List Char)
  | [] => none
  | [c1] => if c1.isDigit then some (digitVal c1, []) else none
  | c1 :: c2 :: rest =>
    if c1.isDigit then
      if c2.isDigit then some (digitVal c1 * 10 + digitVal c2, rest)
      else some (digitVal c1, c2 :: rest)
    else none

/-- Go `time` package `getnum` with `fixed = true`: exactly two digits. -/
def getnumFixed2 : List Char → Option (Nat × List Char)
  | c1 :: c2 :: rest =>
    if c1.isDigit && c2.isDigit then
      some (digitVal c1 * 10 + digitVal c2, rest)
    else none
  | _ => none

/-- The `PM` layout token: matches upper-case `PM`/`AM` only; returns
whether it is `PM`. -/
def parseAMPM : List Char → Option (Bool × List Char)
  | 'P' :: 'M' :: rest => some (true, rest)
  | 'A' :: 'M' :: rest => some (false, rest)
  | _ => none

/-- A literal space in a Go time layout: the value must start with a space
(or be exhausted), and then all leading spaces are consumed. -/
def skipSpaceTok : List Char → Option (List Char)
  | [] => some []
  | c :: rest =>
    if c = ' ' then some ((c :: rest).dropWhile (fun ch => ch = ' '))
    else none

/-- Go 12-hour clock adjustment after `AM`/`PM`. -/
def adjust12 (pm : Bool) (h : Nat) : Nat :=
  if pm then (if h < 12 then h + 12 else h) else (if h = 12 then 0 else h)

/-- `time.Parse("15:04", s)` reduced to (hour, minute). -/
def parseHHMM (l : List Char) : Option (Nat × Nat) := do
  let (h, r1) ← getnum2 l
  match r1 with
  | ':' :: r2 => do
    let (m, r3) ← getnumFixed2 r2
    if r3 = [] ∧ h ≤ 23 ∧ m ≤ 59 then some (h, m) else none
  | _ => none

/-- `time.Parse("3:04 PM", s)` / `time.Parse("3:04PM", s)`. -/
def parseH12MMPM (spaceSep : Bool) (l : List Char) : Option (Nat × Nat) := do
  let (h12, r1) ← getnum2 l
  match r1 with
  | ':' :: r2 => do
    let (m, r3) ← getnumFixed2 r2
    let r4 ← if spaceSep then skipSpaceTok r3 else some r3
    let (pm, r5) ← parseAMPM r4
    if r5 = [] ∧ h12 ≤ 12 ∧ m ≤ 59 then some (adjust12 pm h12, m) else none
  | _ => none

/-- `time.Parse("3 PM", s)` / `time.Parse("3PM", s)`. -/
def parseH12PM (spaceSep : Bool) (l : List Char) : Option (Nat × Nat) := do
  let (h12, r1) ← getnum2 l
  let r2 ← if spaceSep then skipSpaceTok r1 else some r1
  let (pm, r3) ← parseAMPM r2
  if r3 = [] ∧ h12 ≤ 12 then some (adjust12 pm h12, 0) else none

/-- `time.Parse("15", s)`. -/
def parseHH (l : List Char) : Option (Nat × Nat) := do
  let (h, r1) ← getnum2 l
  if r1 = [] ∧ h ≤ 23 then some (h, 0) else none

/-- `parseTimeString` (`internal/core/preferences.go`): try the six accepted
clock layouts in order on the trimmed string; the result is the
(hour, minute) pair the Go code re-packs into a `time.Time`. -/
def parseTimeString (s : String) : Option (Nat × Nat) :=
  let l := trimGoL s.data
  (parseHHMM l).orElse fun _ =>
  (parseH12MMPM true l).orElse fun _ =>
  (parseH12MMPM false l).orElse fun _ =>
  (parseH12PM true l).orElse fun _ =>
  (parseH12PM false l).orElse fun _ =>
  parseHH l

/-- The allow-list of `isValidTimezone`. -/
def validTimezones : List String :=
  ["UTC", "GMT",
   "America/New_York", "America/Chicago", "America/Denver",
   "America/Los_Angeles", "America/Toronto", "America/Vancouver",
   "America/Montreal",
   "Europe/London", "Europe/Paris", "Europe/Berlin", "Europe/Rome",
   "Europe/Madrid",
   "Asia/Tokyo", "Asia/Shanghai", "Asia/Kolkata", "Asia/Dubai",
   "Australia/Sydney", "Australia/Melbourne",
   "Pacific/Auckland"]

/-- `isValidTimezone`: case-insensitive allow-list match, else delegate to
the system time-zone database (`time.LoadLocation`), modelled by the
predicate `tzdb`. -/
def isValidTimezone (tzdb : String → Bool) (tz : String) : Bool :=
  validTimezones.any (fun v => lowerL v.data == lowerL tz.data) || tzdb tz

/-- Go `UserPreferences` struct (`PromptTime` reduced to hour and minute,
which is all `time.Date(0,1,1,h,m,0,0,UTC)` retains). -/
structure UserPreferences where
  name : String
  timezone : String
  promptHour : Nat
  promptMinute : Nat
  projectFocus : Option String
deriving DecidableEq

/-- `parseUserPreferences` (`internal/core/preferences.go`): extract the four
labelled values with the regexps above, reject an unparseable prompt time,
reject missing or literal-placeholder name/timezone (exactly `""`, `"_"` or
eleven underscores), default a missing time to 16:00, and validate the
timezone. -/
def parseUserPreferences (tzdb : String → Bool) (body : String) :
    Option UserPreferences :=
  let nameV :=
    match findNameCapF body.data with
    | some cap => String.mk (trimGoL cap)
    | none => ""
  let tzV :=
    match findLabelAltCapF ["timezone".data] body.data with
    | some cap => String.mk (trimGoL cap)
    | none => ""
  let timeStep : Option (Option (Nat × Nat)) :=
    match findLabelAltCapF ["time".data, "prompt".data] body.data with
    | none => some none
    | some cap =>
      match parseTimeString (String.mk (trimGoL cap)) with
      | none => none
      | some hm => some (some hm)
  match timeStep with
  | none => none
  | some promptTime0 =>
    let projV : Option String :=
      match findLabelAltCapF ["project".data, "focus".data] body.data with
      | some cap =>
        let pn := String.mk (trimGoL cap)
        if pn ≠ "" ∧ pn ≠ "_" ∧ pn ≠ "___________" then some pn else none
      | none => none
    if nameV = "" ∨ nameV = "_" ∨ nameV = "___________" then none
    else if tzV = "" ∨ tzV = "_" ∨ tzV = "___________" then none
    else
      let pt := promptTime0.getD (16, 0)
      if !isValidTimezone tzdb tzV then none
      else some ⟨nameV, tzV, pt.1, pt.2, projV⟩

/-! ### Data model (`internal/models/models.go`, `migrations`) -/

/-- `models.User` restricted to the columns the core reads and writes
(`prompt_time` reduced to hour and minute; timestamps are abstract `Int`
instants). -/
structure User where
  id : Nat
  email : String
  name : String
  timezone : String
  promptHour : Nat
  promptMinute : Nat
  verificationCode : Option String
  isVerified : Bool
  isPaused : Bool
  pauseUntil : Option Int
  projectFocus : Option String
deriving DecidableEq

/-- A row of `entries` (payload columns; `id`/timestamps are bookkeeping the
core never reads). -/
structure EntryRow where
  userId : Nat
  entryDate : String
  rawContent : String
  parsedContent : String
  projectTag : Option String
deriving DecidableEq

def EmailTypeVerification : String := "verification"
def EmailTypeDailyPrompt : String := "daily_prompt"
def EmailTypeWeeklySummary : String := "weekly_summary"
def EmailTypeClarification : String := "clarification"

/-- An `email_logs` insert as performed by `QueueEmail` (subject/body come
from the excluded template collaborator and are not tracked). -/
structure QueuedEmail where
  userId : Option Nat
  recipient : String
  emailType : String
deriving DecidableEq

/-- State touched by a single reply: the account row of the sender, the entries
table and the outbox appends. -/
structure CoreState where
  user : User
  entries : List EntryRow
  outbox : List QueuedEmail
deriving DecidableEq

/-- Outcomes of the fallible `db.ExecContext` statements inside one reply
(`true` = the statement succeeds, `false` = a storage fault). -/
structure StoreBehavior where
  pauseOk : Bool
  projectOk : Bool
  entryOk : Bool
  verifyOk : Bool
deriving DecidableEq

/-- `SendClarificationRequest` enqueues one clarification outbox row for the
user (`QueueEmail` insert; the rendered subject/body are external). -/
def clarificationMsg (u : User) : QueuedEmail :=
  ⟨some u.id, u.email, EmailTypeClarification⟩

/-! ### `saveEntry` upsert (`internal/core/service.go` + `idx_entries_user_date`) -/

/-- The `INSERT ... ON CONFLICT (user_id, entry_date) DO UPDATE` of
`saveEntry`: under the unique index there is at most one conflicting row; it
is overwritten in place, otherwise the row is appended. -/
def upsertEntry (entries : List EntryRow) (uid : Nat) (d : String)
    (raw parsedC : String) (tag : Option String) : List EntryRow :=
  match entries with
  | [] => [⟨uid, d, raw, parsedC, tag⟩]
  | e :: es =>
    if e.userId = uid ∧ e.entryDate = d then ⟨uid, d, raw, parsedC, tag⟩ :: es
    else e :: upsertEntry es uid d raw parsedC tag

/-! ### Reply handling (`internal/core/service.go`) -/

/-- `handleVerificationReply`: require the active code as a case-insensitive
substring, then parse preferences; on either failure enqueue one
clarification and leave the account untouched; on success `verifyUser`
persists the preferences, sets `is_verified` and clears the code (the
`verifyOk` flag is the fallible `UPDATE`). -/
def handleVerificationReply (tzdb : String → Bool) (beh : StoreBehavior)
    (st : CoreState) (body : String) : CoreState × Option String :=
  match st.user.verificationCode with
  | none => (st, some "no verification code set for user")
  | some code =>
    if !contains body code then
      ({ st with outbox := st.outbox ++ [clarificationMsg st.user] }, none)
    else
      match parseUserPreferences tzdb body with
      | none => ({ st with outbox := st.outbox ++ [clarificationMsg st.user] }, none)
      | some prefs =>
        if beh.verifyOk then
          ({ st with user :=
              { st.user with
                  name := prefs.name, timezone := prefs.timezone,
                  promptHour := prefs.promptHour,
                  promptMinute := prefs.promptMinute,
                  projectFocus := prefs.projectFocus,
                  isVerified := true, verificationCode := none } }, none)
        else (st, some "failed to update user")

/-- One iteration of the command loop of `HandleEmailReply`: `pauseUser`,
`updateUserProject` or `saveEntry`; `none` is a storage fault (the failed
statement itself changes nothing).  `saveEntry` stores the command value as
both raw and parsed content, tagged with the project tag of the parsed reply,
under the current UTC date. -/
def applyCommand (beh : StoreBehavior) (nowNanos : Int) (today : String)
    (projTag : Option String) (st : CoreState) (cmd : Command) :
    Option CoreState :=
  if cmd.type = CommandTypePause then
    if beh.pauseOk then
      let u2 := { st.user with
                    isPaused := true,
                    pauseUntil := some (nowNanos + cmd.duration.getD 0) }
      some { st with user := u2 }
    else none
  else if cmd.type = CommandTypeProject then
    if beh.projectOk then
      some { st with user := { st.user with projectFocus := some cmd.value } }
    else none
  else if cmd.type = CommandTypeEntry then
    if beh.entryOk then
      let es2 := upsertEntry st.entries st.user.id today cmd.value cmd.value projTag
      some { st with entries := es2 }
    else none
  else some st

/-- The command loop: apply commands in parse order, stopping at the first
storage fault; the returned flag is `false` on a fault, and the returned
state keeps the effects of the commands already applied (exactly the Go
loop, which returns after the failing command). -/
def applyCommands (beh : StoreBehavior) (nowNanos : Int) (today : String)
    (projTag : Option String) :
    List Command → CoreState → CoreState × Bool
  | [], st => (st, true)
  | cmd :: cmds, st =>
    match applyCommand beh nowNanos today projTag st cmd with
    | none => (st, false)
    | some st2 => applyCommands beh nowNanos today projTag cmds st2

/-- The active-account branch of `HandleEmailReply` (lines 78-107): parse the
reply; if not validated enqueue a clarification; otherwise run the command
loop and enqueue a clarification if any command fails. -/
def handleActiveReply (beh : StoreBehavior) (nowNanos : Int) (today : String)
    (st : CoreState) (body : String) : CoreState × Option String :=
  let parsed := ParseEmailReply body
  if !parsed.isValidated then
    ({ st with outbox := st.outbox ++ [clarificationMsg st.user] }, none)
  else
    let r := applyCommands beh nowNanos today parsed.projectTag parsed.commands st
    if r.2 then (r.1, none)
    else ({ r.1 with outbox := r.1.outbox ++ [clarificationMsg r.1.user] }, none)

/-- `HandleEmailReply` for a sender with an existing account row (the
unknown-sender/signup branch concerns no claim and is not modelled):
unverified accounts go through verification, verified accounts through the
command path. -/
def HandleEmailReply (tzdb : String → Bool) (beh : StoreBehavior)
    (nowNanos : Int) (today : String) (st : CoreState) (body : String) :
    CoreState × Option String :=
  if !st.user.isVerified then handleVerificationReply tzdb beh st body
  else handleActiveReply beh nowNanos today st body

/-! ### Daily-prompt scheduling (`GetUsersForDailyPrompt`, `cmd/scheduler`) -/

/-- Civil hour of an instant measured in minutes (with an offset already
applied). -/
def hourOfMinutes (t : Int) : Nat := ((t % 1440) / 60).toNat

/-- The SQL of `GetUsersForDailyPrompt`:
`is_verified AND (is_paused = FALSE OR pause_until < NOW()) AND
EXTRACT(HOUR FROM prompt_time) = $1` (a paused row with NULL `pause_until`
compares as unknown and is excluded). -/
def GetUsersForDailyPrompt (users : List User) (now : Int)
    (currentHour : Nat) : List User :=
  users.filter (fun u =>
    u.isVerified &&
    (!u.isPaused ||
      (match u.pauseUntil with
       | some t => decide (t < now)
       | none => false)) &&
    (u.promptHour == currentHour))

/-- `shouldSendPrompt` (`cmd/scheduler/main.go`): load the zone of the user
(`none` = `LoadLocation` error, prompt suppressed), compare the local
clock hour of the user with the stored prompt hour.  `offsetMinutesOf` is the system
time-zone database: the UTC offset of the zone in minutes at the current
instant. -/
def shouldSendPrompt (offsetMinutesOf : String → Option Int) (nowMin : Int)
    (u : User) : Bool :=
  match offsetMinutesOf u.timezone with
  | none => false
  | some off => hourOfMinutes (nowMin + off) == u.promptHour

/-- `sendDailyPrompts`: `currentHour := time.Now().UTC().Hour()`, query
`GetUsersForDailyPrompt(currentHour)`, then keep the users passing
`shouldSendPrompt` — the returned list is exactly the accounts for which a
daily-prompt outbox row is enqueued. -/
def sendDailyPrompts (offsetMinutesOf : String → Option Int)
    (users : List User) (nowMin : Int) : List User :=
  (GetUsersForDailyPrompt users nowMin (hourOfMinutes nowMin)).filter
    (shouldSendPrompt offsetMinutesOf nowMin)

/-! ### Outbox processing (`internal/email/service.go`) -/

/-- A row of `email_logs`. -/
structure EmailLogRow where
  id : Nat
  userId : Option Nat
  recipient : String
  emailType : String
  subject : String
  body : String
  status : String
  sesMessageId : Option String
  errorMessage : Option String
  retryCount : Nat
  scheduledAt : Option Int
  sentAt : Option Int
  createdAt : Int
deriving DecidableEq

/-- Insertion into a list sorted by `created_at`. -/
def insertByCreated (m : EmailLogRow) : List EmailLogRow → List EmailLogRow
  | [] => [m]
  | x :: xs =>
    if m.createdAt < x.createdAt then m :: x :: xs else x :: insertByCreated m xs

/-- `ORDER BY created_at ASC`. -/
def sortByCreated : List EmailLogRow → List EmailLogRow
  | [] => []
  | x :: xs => insertByCreated x (sortByCreated xs)

/-- The `SELECT` of `ProcessOutbox`: status `pending`, not-before elapsed or
unset, oldest first, `LIMIT 10`.  It is a plain read: the selected rows are
not claimed or locked, and no status transition happens at selection time. -/
def processOutboxSelect (now : Int) (db : List EmailLogRow) :
    List EmailLogRow :=
  (sortByCreated (db.filter (fun m =>
    m.status == "pending" &&
    (match m.scheduledAt with
     | none => true
     | some t => decide (t ≤ now))))).take 10

/-- `markEmailSent`: `status` set to `sent`, provider id and `sent_at`
recorded. -/
def markEmailSent (db : List EmailLogRow) (emailID : Nat)
    (messageID : String) (now : Int) : List EmailLogRow :=
  db.map (fun m =>
    if m.id = emailID then
      { m with status := "sent", sesMessageId := some messageID,
               sentAt := some now }
    else m)

/-- `markEmailFailed`: `status` set to `failed`, error text recorded,
`retry_count` incremented. -/
def markEmailFailed (db : List EmailLogRow) (emailID : Nat)
    (errorMsg : String) : List EmailLogRow :=
  db.map (fun m =>
    if m.id = emailID then
      { m with status := "failed", errorMessage := some errorMsg,
               retryCount := m.retryCount + 1 }
    else m)

/-- `sendEmail` for one row: deliver through SES (`sesResult` is the
transport outcome: provider message id or error), and on delivery success
run `markEmailSent`, whose own `UPDATE` may fail (`markSentOk = false`), in
which case `sendEmail` returns that error — after the mail has already been
delivered.  The delivery log records every accepted SES send. -/
def sendEmail (sesResult : Option String) (markSentOk : Bool) (now : Int)
    (db : List EmailLogRow) (deliveries : List Nat) (m : EmailLogRow) :
    List EmailLogRow × List Nat × Option String :=
  match sesResult with
  | none => (db, deliveries, some "failed to send email via SES")
  | some msgId =>
    let deliveries2 := deliveries ++ [m.id]
    if markSentOk then (markEmailSent db m.id msgId now, deliveries2, none)
    else (db, deliveries2, some "failed to mark email as sent")

/-- The per-row body of the `ProcessOutbox` loop: `sendEmail`, and on any
error `markEmailFailed` (itself fallible; on failure it only logs). -/
def processOutboxMsg (sesResult : Option String)
    (markSentOk markFailedOk : Bool) (now : Int)
    (acc : List EmailLogRow × List Nat) (m : EmailLogRow) :
    List EmailLogRow × List Nat :=
  match sendEmail sesResult markSentOk now acc.1 acc.2 m with
  | (db2, ds2, none) => (db2, ds2)
  | (db2, ds2, some e) =>
    (if markFailedOk then markEmailFailed db2 m.id e else db2, ds2)

/-- The send loop of one `ProcessOutbox` invocation over an already-fetched
row set (the Go code iterates the rows returned by its initial `SELECT`,
regardless of later status changes), with a transport and store that
succeed. -/
def runSends (now : Int) (sel : List EmailLogRow) (db : List EmailLogRow)
    (ds : List Nat) : List EmailLogRow × List Nat :=
  sel.foldl (processOutboxMsg (some "ses-1") true true now) (db, ds)

/-- Shared store plus the private row sets of two overlapping `ProcessOutbox`
invocations (e.g. the 5-minute scheduler tick and the CLI
`email process-outbox` command) and the log of SES deliveries. -/
structure OverlapState where
  db : List EmailLogRow
  selA : Option (List EmailLogRow)
  selB : Option (List EmailLogRow)
  deliveries : List Nat
deriving DecidableEq

/-- Atomic steps of the two overlapping invocations: each invocation first
runs its `SELECT` (a pure read of the shared store), then its send loop. -/
inductive OStep where
  | selectA
  | selectB
  | sendsA
  | sendsB
deriving DecidableEq

/-- Interleaved execution of the two invocations. -/
def execStep (now : Int) (st : OverlapState) : OStep → OverlapState
  | .selectA => { st with selA := some (processOutboxSelect now st.db) }
  | .selectB => { st with selB := some (processOutboxSelect now st.db) }
  | .sendsA =>
    match st.selA with
    | none => st
    | some sel =>
      let r := runSends now sel st.db st.deliveries
      { st with db := r.1, deliveries := r.2, selA := some [] }
  | .sendsB =>
    match st.selB with
    | none => st
    | some sel =>
      let r := runSends now sel st.db st.deliveries
      { st with db := r.1, deliveries := r.2, selB := some [] }

/-- Run a schedule of interleaved steps. -/
def execSchedule (now : Int) (steps : List OStep) (st : OverlapState) :
    OverlapState :=
  steps.foldl (execStep now) st


/-! ### Small derived definitions used by the theorems -/

/-- The (user_id, entry_date) key of the unique index `idx_entries_user_date`. -/
def keyEq (uid : Nat) (d : String) (e : EntryRow) : Bool :=
  e.userId == uid && e.entryDate == d

/-- Nanoseconds per parsed unit (`k * 24 * time.Hour` for k = 1, 7, 30). -/
def multNatOf : DurUnit → Nat
  | .day => 86400000000000
  | .week => 604800000000000
  | .month => 2592000000000000

/-- The literal-phrase table of §4.1 of the specification. -/
def pauseLiteralTable : List (String × Int) :=
  [("today", 86400000000000), ("tomorrow", 86400000000000),
   ("this week", 604800000000000), ("next week", 604800000000000),
   ("this month", 2592000000000000), ("next month", 2592000000000000)]

/-- The six unit spellings with their per-unit nanosecond multipliers. -/
def pauseUnitTable : List (String × Nat) :=
  [("day", 86400000000000), ("days", 86400000000000),
   ("week", 604800000000000), ("weeks", 604800000000000),
   ("month", 2592000000000000), ("months", 2592000000000000)]

/-! ## Helper lemmas -/

theorem isDigit_lowerChar (c : Char) : (lowerChar c).isDigit = c.isDigit := by
  unfold lowerChar
  split <;> rfl

theorem lowerChar_of_isDigit (c : Char) (h : c.isDigit = true) :
    lowerChar c = c := by
  unfold lowerChar
  split <;> first | rfl | simp_all

theorem goIsSpace_of_isDigit (c : Char) (h : c.isDigit = true) :
    goIsSpace c = false := by
  simp only [goIsSpace, Bool.or_eq_false_iff, beq_eq_false_iff_ne]
  refine ⟨⟨⟨⟨⟨?_, ?_⟩, ?_⟩, ?_⟩, ?_⟩, ?_⟩ <;> rintro rfl <;> simp at h

theorem wrap64_small (x : Int) (h1 : 0 ≤ x) (h2 : x < 9223372036854775808) :
    wrap64 x = x := by
  unfold wrap64
  omega

theorem dropWhile_head_false {p : Char → Bool} (l : List Char)
    (h : ∀ c, l.head? = some c → p c = false) : l.dropWhile p = l := by
  cases l with
  | nil => rfl
  | cons x xs => simp [List.dropWhile_cons, h x rfl]

theorem takeWhile_append_all {p : Char → Bool} (l1 l2 : List Char)
    (h1 : ∀ c ∈ l1, p c = true) (h2 : ∀ c, l2.head? = some c → p c = false) :
    (l1 ++ l2).takeWhile p = l1 := by
  induction l1 with
  | nil =>
    cases l2 with
    | nil => rfl
    | cons x xs => simp [List.takeWhile_cons, h2 x rfl]
  | cons a l1 ih =>
    simp only [List.cons_append, List.takeWhile_cons,
      h1 a (List.mem_cons_self a l1), if_true]
    rw [ih (fun c hc => h1 c (List.mem_cons_of_mem a hc))]

theorem dropWhile_append_all {p : Char → Bool} (l1 l2 : List Char)
    (h1 : ∀ c ∈ l1, p c = true) (h2 : ∀ c, l2.head? = some c → p c = false) :
    (l1 ++ l2).dropWhile p = l2 := by
  induction l1 with
  | nil =>
    cases l2 with
    | nil => rfl
    | cons x xs => simp [List.dropWhile_cons, h2 x rfl]
  | cons a l1 ih =>
    simp only [List.cons_append, List.dropWhile_cons,
      h1 a (List.mem_cons_self a l1), if_true]
    exact ih (fun c hc => h1 c (List.mem_cons_of_mem a hc))

theorem mem_trimGoL {c : Char} {l : List Char} (h : c ∈ trimGoL l) : c ∈ l := by
  unfold trimGoL at h
  rw [List.mem_reverse] at h
  have h2 := (List.dropWhile_sublist (p := goIsSpace)
    (l := (l.dropWhile goIsSpace).reverse)).subset h
  rw [List.mem_reverse] at h2
  exact (List.dropWhile_sublist (p := goIsSpace) (l := l)).subset h2

theorem keyEq_true_iff (uid : Nat) (d : String) (e : EntryRow) :
    keyEq uid d e = true ↔ (e.userId = uid ∧ e.entryDate = d) := by
  simp [keyEq]

theorem filter_keyEq_upsertEntry (es : List EntryRow) (uid : Nat) (d : String)
    (r p : String) (t : Option String)
    (h : (es.filter (keyEq uid d)).length ≤ 1) :
    (upsertEntry es uid d r p t).filter (keyEq uid d) =
      [⟨uid, d, r, p, t⟩] := by
  induction es with
  | nil => simp [upsertEntry, List.filter, keyEq]
  | cons e es ih =>
    by_cases hk : e.userId = uid ∧ e.entryDate = d
    · rw [upsertEntry, if_pos hk]
      have hke : keyEq uid d e = true := (keyEq_true_iff uid d e).mpr hk
      rw [List.filter_cons, if_pos hke] at h
      have hes : es.filter (keyEq uid d) = [] := by
        have : (es.filter (keyEq uid d)).length = 0 := by
          simp only [List.length_cons] at h
          omega
        exact List.length_eq_zero.mp this
      rw [List.filter_cons]
      have : keyEq uid d (⟨uid, d, r, p, t⟩ : EntryRow) = true := by
        simp [keyEq]
      rw [if_pos this, hes]
    · rw [upsertEntry, if_neg hk]
      have hke : keyEq uid d e = false := by
        rw [← Bool.not_eq_true, keyEq_true_iff]
        exact hk
      rw [List.filter_cons, if_neg (by simp [hke])] at h
      rw [List.filter_cons, if_neg (by simp [hke])]
      exact ih h

/-! ## Claims -/

/-- Claim C5: storing a journal entry for (account, date) is an upsert with
last-write-wins semantics: starting from any entries table satisfying the
unique-index invariant (at most one row per key), upserting two entries for
the same account and date leaves exactly one stored row for that key, and it
carries the second payload. -/
theorem c5_upsert_last_write_wins (es : List EntryRow) (uid : Nat) (d : String)
    (r1 p1 r2 p2 : String) (t1 t2 : Option String)
    (h : (es.filter (keyEq uid d)).length ≤ 1) :
    (upsertEntry (upsertEntry es uid d r1 p1 t1) uid d r2 p2 t2).filter
        (keyEq uid d) = [⟨uid, d, r2, p2, t2⟩] := by
  have h1 := filter_keyEq_upsertEntry es uid d r1 p1 t1 h
  have h2 : ((upsertEntry es uid d r1 p1 t1).filter (keyEq uid d)).length ≤ 1 := by
    rw [h1]
    simp
  exact filter_keyEq_upsertEntry _ uid d r2 p2 t2 h2

/-- Witness for C5 at a concrete table, key and payloads. -/
theorem c5_witness :
    (upsertEntry (upsertEntry [(⟨9, "2025-10-09", "x", "x", none⟩ : EntryRow)]
        5 "2025-10-10" "first" "first" none)
      5 "2025-10-10" "second" "second" (some "infra")).filter
        (keyEq 5 "2025-10-10") =
      [⟨5, "2025-10-10", "second", "second", some "infra"⟩] :=
  c5_upsert_last_write_wins [⟨9, "2025-10-09", "x", "x", none⟩]
    5 "2025-10-10" "first" "first" "second" "second" none (some "infra")
    (by decide)

/-- Claim C9: an account with `is_verified = false` is never selected by the
daily-prompt scheduling, neither by the `GetUsersForDailyPrompt` query nor by
the full `sendDailyPrompts` selection, at any instant and for any hour
bucket. -/
theorem c9_unverified_never_selected (users : List User) (now : Int)
    (currentHour : Nat) (offsetMinutesOf : String → Option Int) (u : User)
    (h : u.isVerified = false) :
    u ∉ GetUsersForDailyPrompt users now currentHour ∧
    u ∉ sendDailyPrompts offsetMinutesOf users now := by
  constructor
  · intro hmem
    have h2 := (List.mem_filter.mp hmem).2
    simp [h] at h2
  · intro hmem
    unfold sendDailyPrompts at hmem
    have h1 := (List.mem_filter.mp hmem).1
    have h2 := (List.mem_filter.mp h1).2
    simp [h] at h2

/-- Witness for C9 at a concrete unverified account. -/
theorem c9_witness :
    (⟨2, "p@x.com", "P", "UTC", 14, 0, some "123456", false, false, none,
        none⟩ : User) ∉
      GetUsersForDailyPrompt
        [⟨2, "p@x.com", "P", "UTC", 14, 0, some "123456", false, false, none,
          none⟩] 840 14 :=
  (c9_unverified_never_selected _ 840 14 (fun _ => some 0) _ rfl).1

/-- Claim C4: for an unverified account with an active verification code, a
verification reply that fails validation — the body does not contain the code
as a case-insensitive substring, or the preference fields do not parse —
enqueues exactly one clarification message and mutates nothing: the account
row (so `is_verified` stays false and the code stays set) and the entries are
unchanged. -/
theorem c4_verification_failure_no_mutation (tzdb : String → Bool)
    (beh : StoreBehavior) (nowNanos : Int) (today : String) (st : CoreState)
    (body : String) (code : String)
    (hvc : st.user.verificationCode = some code)
    (hnv : st.user.isVerified = false)
    (hfail : contains body code = false ∨ parseUserPreferences tzdb body = none) :
    HandleEmailReply tzdb beh nowNanos today st body =
      ({ st with outbox := st.outbox ++ [clarificationMsg st.user] }, none) := by
  unfold HandleEmailReply
  rw [hnv]
  simp only [Bool.not_false, if_true]
  unfold handleVerificationReply
  rw [hvc]
  rcases hfail with hf | hf
  · simp [hf]
  · cases hcb : contains body code
    · simp [hcb]
    · simp [hcb, hf]

/-- Witness for C4: a reply that lacks the active code. -/
theorem c4_witness :
    HandleEmailReply (fun _ => false) ⟨true, true, true, true⟩ 0 "2025-10-11"
        ⟨⟨2, "p@x.com", "New User", "UTC", 16, 0, some "123456", false, false,
          none, none⟩, [], []⟩ "hello" =
      (⟨⟨2, "p@x.com", "New User", "UTC", 16, 0, some "123456", false, false,
          none, none⟩, [], [⟨some 2, "p@x.com", "clarification"⟩]⟩, none) :=
  c4_verification_failure_no_mutation (fun _ => false) ⟨true, true, true, true⟩
    0 "2025-10-11" _ "hello" "123456" rfl rfl (Or.inl (by decide))

/-- Claim C8: a reply whose cleaned text (after boilerplate stripping)
contains no recognized command tag and no leftover free text is flagged as
not validated by `ParseEmailReply`, and handling it for a verified (active)
account enqueues exactly one clarification and changes nothing else — in
particular no journal entry is stored. -/
theorem c8_empty_reply_clarification (tzdb : String → Bool)
    (beh : StoreBehavior) (nowNanos : Int) (today : String) (st : CoreState)
    (body : String)
    (hv : st.user.isVerified = true)
    (hp : findAllTag "pause".data (cleanEmailContent (trimGoL body.data)) = [])
    (hj : findAllTag "project".data (cleanEmailContent (trimGoL body.data)) = [])
    (he : findAllTag "entry".data (cleanEmailContent (trimGoL body.data)) = [])
    (hl : trimGoL (removeAllTag "entry".data (removeAllTag "project".data
            (removeAllTag "pause".data
              (cleanEmailContent (trimGoL body.data))))) = []) :
    (ParseEmailReply body).isValidated = false ∧
    HandleEmailReply tzdb beh nowNanos today st body =
      ({ st with outbox := st.outbox ++ [clarificationMsg st.user] }, none) := by
  have hparse : ParseEmailReply body =
      { content := String.mk [], commands := [], projectTag := none,
        isValidated := false,
        errMsg := some "no meaningful content found in reply" } := by
    unfold ParseEmailReply
    simp only [hp, hj, he, hl, buildPauseCommands]
    simp
  refine ⟨by rw [hparse], ?_⟩
  unfold HandleEmailReply
  rw [hv]
  simp only [Bool.not_true, if_false, Bool.false_eq_true]
  unfold handleActiveReply
  rw [hparse]
  simp

/-- Witness for C8: a reply consisting only of quoted text and a signature
footer. -/
theorem c8_witness :
    (ParseEmailReply "> old text\nSent from my iPhone").isValidated = false ∧
    HandleEmailReply (fun _ => false) ⟨true, true, true, true⟩ 0 "2025-10-11"
        ⟨⟨7, "a@x.com", "A", "UTC", 9, 0, none, true, false, none, none⟩,
          [], []⟩ "> old text\nSent from my iPhone" =
      (⟨⟨7, "a@x.com", "A", "UTC", 9, 0, none, true, false, none, none⟩,
          [], [⟨some 7, "a@x.com", "clarification"⟩]⟩, none) :=
  c8_empty_reply_clarification (fun _ => false) ⟨true, true, true, true⟩
    0 "2025-10-11" _ "> old text\nSent from my iPhone"
    rfl (by decide) (by decide) (by decide) (by decide)

/-- Claim C10: when SES delivery succeeds but the follow-up status update to
`sent` fails, the outbox processor marks the message `failed` with an error
text and an incremented retry counter, although the mail was delivered (its id
is appended to the delivery log); and after an operator replay that resets the
status to `pending`, re-processing delivers the same message a second
time. -/
theorem c10_delivered_but_marked_failed (m : EmailLogRow) (ds : List Nat)
    (sid sid2 : String) (n1 n2 : Int) (hp : m.status = "pending") :
    processOutboxMsg (some sid) false true n1 ([m], ds) m =
      ([{ m with status := "failed",
                 errorMessage := some "failed to mark email as sent",
                 retryCount := m.retryCount + 1 }], ds ++ [m.id]) ∧
    processOutboxMsg (some sid2) true true n2
        ([{ m with status := "pending",
                   errorMessage := some "failed to mark email as sent",
                   retryCount := m.retryCount + 1 }], ds ++ [m.id])
        { m with status := "pending",
                 errorMessage := some "failed to mark email as sent",
                 retryCount := m.retryCount + 1 } =
      ([{ m with status := "sent", sesMessageId := some sid2,
                 errorMessage := some "failed to mark email as sent",
                 retryCount := m.retryCount + 1, sentAt := some n2 }],
        ds ++ [m.id, m.id]) := by
  constructor
  · simp [processOutboxMsg, sendEmail, markEmailFailed]
  · simp [processOutboxMsg, sendEmail, markEmailSent]

/-- Witness for C10 at a concrete pending message. -/
theorem c10_witness :
    processOutboxMsg (some "id-1") false true 3
        ([⟨4, some 7, "a@x.com", "daily_prompt", "s", "b", "pending", none,
            none, 0, none, none, 0⟩], []) 
        ⟨4, some 7, "a@x.com", "daily_prompt", "s", "b", "pending", none,
          none, 0, none, none, 0⟩ =
      ([⟨4, some 7, "a@x.com", "daily_prompt", "s", "b", "failed", none,
          some "failed to mark email as sent", 1, none, none, 0⟩], [4]) :=
  (c10_delivered_but_marked_failed
    ⟨4, some 7, "a@x.com", "daily_prompt", "s", "b", "pending", none, none, 0,
      none, none, 0⟩ [] "id-1" "id-2" 3 9 rfl).1

/-- Claim C1 (divergence): a verified, unpaused account in
`America/New_York` (UTC-4 at a June instant) with preferred local prompt hour
14 is selected at no instant: at 18:00 UTC its local hour is 14 — the claim
says it must be selected — but the `EXTRACT(HOUR FROM prompt_time) = $1`
pre-filter compares the stored local hour 14 with the UTC hour 18 and
excludes it; at 14:00 UTC the pre-filter passes but `shouldSendPrompt`
compares local hour 10 with 14 and rejects.  The selection is therefore not
the claimed local-hour predicate. -/
theorem c1_local_hour_account_never_selected :
    let u : User :=
      ⟨1, "u@example.com", "U", "America/New_York", 14, 0, none, true, false,
        none, none⟩
    let off : String → Option Int :=
      fun z => if z = "America/New_York" then some (-240) else none
    hourOfMinutes (1080 + (-240)) = 14 ∧
    u.promptHour = 14 ∧ u.isVerified = true ∧ u.isPaused = false ∧
    shouldSendPrompt off 1080 u = true ∧
    sendDailyPrompts off [u] 1080 = [] ∧
    sendDailyPrompts off [u] 840 = [] := by
  decide

/-- Claim C2 (divergence): `ProcessOutbox` selects with a plain `SELECT` and
performs no status transition until after the send, so in the overlap where
both invocations run their `SELECT` before either update — legal, since
selection writes nothing — both attempt the single pending message and it is
delivered twice. -/
theorem c2_overlapping_process_outbox_double_delivery :
    let m : EmailLogRow :=
      ⟨1, none, "user@example.com", "daily_prompt", "subj", "body", "pending",
        none, none, 0, none, none, 0⟩
    (execSchedule 5 [.selectA, .selectB, .sendsA, .sendsB]
        ⟨[m], none, none, []⟩).deliveries = [1, 1] := by
  decide

/-- Claim C3 (divergence): a validated reply with commands
`[project "alpha", entry "ship"]` from an active account, where the entry
`INSERT` faults, ends with a clarification enqueued — but the earlier
project command effect persists (`project_focus` = "alpha"), a partial
application the claim forbids. -/
theorem c3_command_failure_keeps_prior_effects :
    let u : User := ⟨7, "a@x.com", "A", "UTC", 9, 0, none, true, false, none,
      none⟩
    let r := HandleEmailReply (fun _ => false) ⟨true, true, false, true⟩ 0
      "2025-10-11" ⟨u, [], []⟩ "<project>alpha</project><entry>ship</entry>"
    (ParseEmailReply "<project>alpha</project><entry>ship</entry>").commands =
      [⟨"project", "alpha", none⟩, ⟨"entry", "ship", none⟩] ∧
    (ParseEmailReply
      "<project>alpha</project><entry>ship</entry>").isValidated = true ∧
    r.1.user.projectFocus = some "alpha" ∧
    r.1.entries = [] ∧
    r.1.outbox = [⟨some 7, "a@x.com", "clarification"⟩] := by
  decide

/-- Claim C7 (counterexample): the placeholder check rejects only the exact
strings "_" and "___________" (eleven underscores); a name that is the
underscore run "___" passes validation, so a reply supplying only
underscores for a required field is accepted, contradicting the claim. -/
theorem c7_counterexample :
    parseUserPreferences (fun _ => false)
        "Name: ___\nTime: 9:00\nTimezone: UTC" =
      some ⟨"___", "UTC", 9, 0, none⟩ := by
  decide

theorem findSome_one {a b : Type} (f : a → Option b) (x : a) :
    List.findSome? f [x] = f x := by
  cases hfx : f x <;> simp [List.findSome?, hfx]

theorem findSome_two {a b : Type} (f : a → Option b) (x y : a) :
    List.findSome? f [x, y] =
      match f x with
      | some v => some v
      | none => f y := by
  cases hfx : f x <;> cases hfy : f y <;> simp [List.findSome?, hfx, hfy]

theorem lowerChar_eq_colon (c : Char) (h : lowerChar c = ':') : c = ':' := by
  unfold lowerChar at h
  split at h <;> first | assumption | exact absurd h (by decide)

theorem prefixCIL_append (p q s : List Char)
    (h : prefixCIL (p ++ q) s = true) :
    prefixCIL p s = true ∧ prefixCIL q (s.drop p.length) = true := by
  induction p generalizing s with
  | nil =>
    refine ⟨rfl, ?_⟩
    simpa using h
  | cons a p ih =>
    cases s with
    | nil => exact absurd h (by simp [prefixCIL])
    | cons b s =>
      rw [List.cons_append] at h
      simp only [prefixCIL, Bool.and_eq_true] at h
      obtain ⟨hab, hrest⟩ := h
      obtain ⟨h1, h2⟩ := ih s hrest
      constructor
      · simp only [prefixCIL, Bool.and_eq_true]
        exact ⟨hab, h1⟩
      · rw [List.length_cons, List.drop_succ_cons]
        exact h2

theorem dropWhile_colon_skip (q : List Char) (hq : ∀ c ∈ q, c ≠ ':') :
    ∀ s : List Char, prefixCIL q s = true →
      s.dropWhile (fun ch => ch ≠ ':') =
        (s.drop q.length).dropWhile (fun ch => ch ≠ ':') := by
  induction q with
  | nil =>
    intro s _
    simp
  | cons a q ih =>
    intro s hpre
    cases s with
    | nil => exact absurd hpre (by simp [prefixCIL])
    | cons b s =>
      simp only [prefixCIL, Bool.and_eq_true, beq_iff_eq] at hpre
      obtain ⟨hab, hrest⟩ := hpre
      have hbne : b ≠ ':' := by
        intro hb
        refine hq a (List.mem_cons_self a q) ?_
        rw [hab, hb]
        rfl
      rw [List.dropWhile_cons, if_pos (by simpa using hbne)]
      rw [List.length_cons, List.drop_succ_cons]
      exact ih (fun c hc => hq c (List.mem_cons_of_mem a hc)) s hrest

/-- At any fixed position, a match of the `timezone[^:]*:` label shape is
also a match of the `(?:time|prompt)[^:]*:` shape with the same capture:
`time` is a prefix of `timezone`, the four remaining letters `zone` cannot
contain a colon, so the `[^:]*` of both regexps runs to the same first colon
and the capture tails coincide. -/
theorem tryLabelAlts_time_of_timezone (s : List Char) (cap : List Char)
    (h : tryLabelAlts ["timezone".data] s = some cap) :
    tryLabelAlts ["time".data, "prompt".data] s = some cap := by
  unfold tryLabelAlts at h ⊢
  rw [findSome_one] at h
  by_cases hpre : prefixCIL "timezone".data s = true
  · rw [if_pos hpre] at h
    have heq : "timezone".data = "time".data ++ "zone".data := rfl
    obtain ⟨hpre4, hzone⟩ :=
      prefixCIL_append "time".data "zone".data s (by rw [← heq]; exact hpre)
    have hskip := dropWhile_colon_skip "zone".data (by decide)
      (s.drop "time".data.length) hzone
    have hdd : (s.drop "time".data.length).drop "zone".data.length =
        s.drop "timezone".data.length := by
      rw [List.drop_drop]
      rfl
    rw [findSome_two, if_pos hpre4, hskip, hdd, h]
  · rw [if_neg hpre] at h
    exact absurd h (Option.noConfusion)

/-- If the leftmost scan for the `(?:time|prompt)[^:]*:` shape finds no
match, neither does the scan for `timezone[^:]*:`. -/
theorem findLabelAltCapF_timezone_none (l : List Char)
    (h : findLabelAltCapF ["time".data, "prompt".data] l = none) :
    findLabelAltCapF ["timezone".data] l = none := by
  induction l with
  | nil => rfl
  | cons c rest ih =>
    unfold findLabelAltCapF at h ⊢
    cases htz : tryLabelAlts ["timezone".data] (c :: rest) with
    | some cap =>
      rw [tryLabelAlts_time_of_timezone _ _ htz] at h
      exact absurd h (by simp)
    | none =>
      dsimp only
      apply ih
      cases htp : tryLabelAlts ["time".data, "prompt".data] (c :: rest) with
      | some cap =>
        rw [htp] at h
        exact absurd h (by simp)
      | none =>
        rw [htp] at h
        simpa using h

/-- Claim C7 (amended): successful preference parsing guarantees that name
and time zone are present and are neither blank nor the two literal
placeholders "_" / "___________" (underscore runs of other lengths pass that
check), that the time zone validates, and that the prompt time was parsed
from a matched time/prompt label — so a reply missing any required field is
rejected rather than accepted with defaults.  (A reply with no time label
has no timezone label either — the literal `timezone` contains `time` and
both regexps run `[^:]*` to the same first colon — so it is rejected on the
blank timezone, never defaulted.) -/
theorem c7_preferences_success_shape (tzdb : String → Bool) (body : String)
    (p : UserPreferences)
    (h : parseUserPreferences tzdb body = some p) :
    (p.name ≠ "" ∧ p.name ≠ "_" ∧ p.name ≠ "___________") ∧
    (p.timezone ≠ "" ∧ p.timezone ≠ "_" ∧ p.timezone ≠ "___________") ∧
    isValidTimezone tzdb p.timezone = true ∧
    (∃ cap, findLabelAltCapF ["time".data, "prompt".data] body.data =
        some cap ∧
      parseTimeString (String.mk (trimGoL cap)) =
        some (p.promptHour, p.promptMinute)) := by
  unfold parseUserPreferences at h
  cases hm : findLabelAltCapF ["time".data, "prompt".data] body.data with
  | none =>
    exfalso
    have htz := findLabelAltCapF_timezone_none body.data hm
    rw [hm, htz] at h
    dsimp only at h
    split_ifs at h with h1 h2 h3 <;>
      first
      | exact Option.noConfusion h
      | exact h2 (Or.inl rfl)
  | some mcap =>
    rw [hm] at h
    dsimp only at h
    cases hpt : parseTimeString (String.mk (trimGoL mcap)) with
    | none =>
      rw [hpt] at h
      simp at h
    | some hm2 =>
      rw [hpt] at h
      dsimp only at h
      split_ifs at h with h1 h2 h3 <;> try exact Option.noConfusion h
      rw [Option.some_inj] at h
      subst h
      push_neg at h1 h2
      refine ⟨h1, h2, ?_, ⟨mcap, rfl, ?_⟩⟩
      · simpa using h3
      · rw [hpt]
        rfl

/-- Witness for C7 at a concrete accepted reply. -/
theorem c7_witness :
    ((⟨"Bo", "UTC", 9, 0, none⟩ : UserPreferences).name ≠ "" ∧
      (⟨"Bo", "UTC", 9, 0, none⟩ : UserPreferences).name ≠ "_" ∧
      (⟨"Bo", "UTC", 9, 0, none⟩ : UserPreferences).name ≠ "___________") ∧
    ((⟨"Bo", "UTC", 9, 0, none⟩ : UserPreferences).timezone ≠ "" ∧
      (⟨"Bo", "UTC", 9, 0, none⟩ : UserPreferences).timezone ≠ "_" ∧
      (⟨"Bo", "UTC", 9, 0, none⟩ : UserPreferences).timezone ≠ "___________") ∧
    isValidTimezone (fun _ => false)
      (⟨"Bo", "UTC", 9, 0, none⟩ : UserPreferences).timezone = true ∧
    (∃ cap, findLabelAltCapF ["time".data, "prompt".data]
        "Name: Bo\nTime: 9:00\nTimezone: UTC".data = some cap ∧
      parseTimeString (String.mk (trimGoL cap)) =
        some ((⟨"Bo", "UTC", 9, 0, none⟩ : UserPreferences).promptHour,
          (⟨"Bo", "UTC", 9, 0, none⟩ : UserPreferences).promptMinute)) :=
  c7_preferences_success_shape (fun _ => false)
    "Name: Bo\nTime: 9:00\nTimezone: UTC" ⟨"Bo", "UTC", 9, 0, none⟩
    (by decide)

theorem map_lowerChar_id (l : List Char) (h : ∀ c ∈ l, lowerChar c = c) :
    lowerL l = l := by
  induction l with
  | nil => rfl
  | cons a l ih =>
    simp only [lowerL, List.map_cons]
    rw [h a (List.mem_cons_self a l)]
    have := ih (fun c hc => h c (List.mem_cons_of_mem a hc))
    simp only [lowerL] at this
    rw [this]

theorem scanNumUnitF_none (fuel : Nat) (l : List Char)
    (h : ∀ c ∈ l, c.isDigit = false) : scanNumUnitF fuel l = none := by
  induction fuel generalizing l with
  | zero => rfl
  | succ n ih =>
    cases l with
    | nil => rfl
    | cons c rest =>
      simp only [scanNumUnitF, h c (List.mem_cons_self c rest),
        Bool.false_eq_true, if_false]
      exact ih rest (fun x hx => h x (List.mem_cons_of_mem c hx))

theorem no_digit_lowerL_trimGoL (s : List Char)
    (h : ∀ c ∈ s, c.isDigit = false) :
    ∀ c ∈ lowerL (trimGoL s), c.isDigit = false := by
  intro c hc
  rcases List.mem_map.mp hc with ⟨c0, hc0, rfl⟩
  rw [isDigit_lowerChar]
  exact h c0 (mem_trimGoL hc0)

theorem mk_cons_ne_of_head (d : Char) (tl : List Char) (hd : d.isDigit = true)
    (L : String) (c0 : Char) (hc0 : L.data.head? = some c0)
    (hc0d : c0.isDigit = false) : String.mk (d :: tl) ≠ L := by
  intro he
  have hdata : L.data = d :: tl := by rw [← he]
  rw [hdata, List.head?_cons] at hc0
  have hdc : d = c0 := by injection hc0
  rw [hdc, hc0d] at hd
  exact Bool.noConfusion hd

/-- The generic-path lemma for C6: a digit run, optional spaces and one of
the six unit spellings parse to (digit value) x (unit nanoseconds), provided
the product fits in an int64 duration. -/
theorem parsePauseDuration_numunit (ds sep us : List Char) (u0 : DurUnit)
    (hds : ds ≠ []) (hdig : ∀ c ∈ ds, c.isDigit = true)
    (hsep : ∀ c ∈ sep, c = ' ')
    (husne : us ≠ [])
    (hhead : ∀ c, us.head? = some c → (c.isDigit = false ∧ reIsSpace c = false))
    (hlow : lowerL us = us)
    (hlast : ∀ c, us.reverse.head? = some c → goIsSpace c = false)
    (hmatch : matchUnitAt us = some u0)
    (hbound : natOfDigits ds * multNatOf u0 ≤ 9223372036854775807) :
    parsePauseDuration (String.mk (ds ++ sep ++ us)) =
      some ((natOfDigits ds : Int) * (multNatOf u0 : Int)) := by
  rcases List.exists_cons_of_ne_nil hds with ⟨d, ds', rfl⟩
  have hd_dig : d.isDigit = true := hdig d (List.mem_cons_self d ds')
  have hA : (d :: ds') ++ sep ++ us = d :: (ds' ++ (sep ++ us)) := by simp
  rw [hA]
  -- the head of the text after the digit run is neither a digit nor a space
  have hafter_nodigit : ∀ c, (sep ++ us).head? = some c → c.isDigit = false := by
    intro c hc
    cases sep with
    | nil =>
      simp only [List.nil_append] at hc
      exact (hhead c hc).1
    | cons s ss =>
      rw [List.cons_append, List.head?_cons] at hc
      have : s = c := by injection hc
      rw [← this, hsep s (List.mem_cons_self s ss)]
      decide
  have hus_head_nospace : ∀ c, us.head? = some c → reIsSpace c = false :=
    fun c hc => (hhead c hc).2
  -- trimming changes nothing: the ends are a digit and a unit letter
  have htrim : trimGoL (d :: (ds' ++ (sep ++ us))) = d :: (ds' ++ (sep ++ us)) := by
    unfold trimGoL
    have h1 : (d :: (ds' ++ (sep ++ us))).dropWhile goIsSpace =
        d :: (ds' ++ (sep ++ us)) := by
      apply dropWhile_head_false
      intro c hc
      rw [List.head?_cons] at hc
      have : d = c := by injection hc
      rw [← this]
      exact goIsSpace_of_isDigit d hd_dig
    rw [h1]
    obtain ⟨e, r, her⟩ : ∃ e r, us.reverse = e :: r :=
      List.exists_cons_of_ne_nil (by rwa [ne_eq, List.reverse_eq_nil_iff])
    have h2 : (d :: (ds' ++ (sep ++ us))).reverse.dropWhile goIsSpace =
        (d :: (ds' ++ (sep ++ us))).reverse := by
      apply dropWhile_head_false
      intro c hc
      simp only [List.reverse_cons, List.reverse_append, her,
        List.cons_append, List.append_assoc, List.head?_cons] at hc
      have : e = c := by injection hc
      rw [← this]
      exact hlast e (by rw [her]; rfl)
    rw [h2, List.reverse_reverse]
  -- lower-casing changes nothing: digits, spaces and lower-case letters
  have hlowA : lowerL (d :: (ds' ++ (sep ++ us))) = d :: (ds' ++ (sep ++ us)) := by
    unfold lowerL
    simp only [List.map_cons, List.map_append]
    rw [lowerChar_of_isDigit d hd_dig]
    have hmds : ds'.map lowerChar = ds' :=
      map_lowerChar_id ds' (fun c hc =>
        lowerChar_of_isDigit c (hdig c (List.mem_cons_of_mem d hc)))
    have hmsep : sep.map lowerChar = sep :=
      map_lowerChar_id sep (fun c hc => by rw [hsep c hc]; rfl)
    have hmus : us.map lowerChar = us := hlow
    rw [hmds, hmsep, hmus]
  -- the scanner finds the run and the unit at the leftmost position
  have hscan : scanNumUnit (d :: (ds' ++ (sep ++ us))) = some (d :: ds', u0) := by
    unfold scanNumUnit
    rw [List.length_cons]
    simp only [scanNumUnitF, hd_dig, if_true]
    have htw : (ds' ++ (sep ++ us)).takeWhile Char.isDigit = ds' :=
      takeWhile_append_all ds' (sep ++ us)
        (fun c hc => hdig c (List.mem_cons_of_mem d hc)) hafter_nodigit
    have hdw : (ds' ++ (sep ++ us)).dropWhile Char.isDigit = sep ++ us :=
      dropWhile_append_all ds' (sep ++ us)
        (fun c hc => hdig c (List.mem_cons_of_mem d hc)) hafter_nodigit
    have hsp : (sep ++ us).dropWhile reIsSpace = us :=
      dropWhile_append_all sep us
        (fun c hc => by rw [hsep c hc]; rfl) hus_head_nospace
    rw [htw, hdw, hsp, hmatch]
  -- the digit value is in Atoi range
  have hmultpos : 0 < multNatOf u0 := by cases u0 <;> decide
  have hval : natOfDigits (d :: ds') ≤ 9223372036854775807 :=
    le_trans (Nat.le_mul_of_pos_right _ hmultpos) hbound
  -- now unfold the parser
  unfold parsePauseDuration
  dsimp only
  rw [htrim, hlowA]
  -- the six letter-initial literal phrases cannot match a digit-initial text
  rw [if_neg (mk_cons_ne_of_head d _ hd_dig "today" 't' rfl (by decide))]
  rw [if_neg (mk_cons_ne_of_head d _ hd_dig "tomorrow" 't' rfl (by decide))]
  rw [if_neg (mk_cons_ne_of_head d _ hd_dig "this week" 't' rfl (by decide))]
  by_cases hw : String.mk (d :: (ds' ++ (sep ++ us))) = "1 week"
  · rw [if_pos hw]
    have hdata : d :: (ds' ++ (sep ++ us)) = "1 week".data := by
      have := congrArg String.data hw
      simpa using this
    rw [hdata] at hscan
    have hconc : scanNumUnit "1 week".data = some (['1'], DurUnit.week) := by
      decide
    rw [hconc, Option.some_inj, Prod.mk.injEq] at hscan
    obtain ⟨hl, hu⟩ := hscan
    rw [← hl, ← hu]
    decide
  · rw [if_neg hw]
    rw [if_neg (mk_cons_ne_of_head d _ hd_dig "next week" 'n' rfl (by decide))]
    rw [if_neg (mk_cons_ne_of_head d _ hd_dig "this month" 't' rfl (by decide))]
    by_cases hmo : String.mk (d :: (ds' ++ (sep ++ us))) = "1 month"
    · rw [if_pos hmo]
      have hdata : d :: (ds' ++ (sep ++ us)) = "1 month".data := by
        have := congrArg String.data hmo
        simpa using this
      rw [hdata] at hscan
      have hconc : scanNumUnit "1 month".data = some (['1'], DurUnit.month) := by
        decide
      rw [hconc, Option.some_inj, Prod.mk.injEq] at hscan
      obtain ⟨hl, hu⟩ := hscan
      rw [← hl, ← hu]
      decide
    · rw [if_neg hmo]
      rw [if_neg (mk_cons_ne_of_head d _ hd_dig "next month" 'n' rfl (by decide))]
      rw [hscan]
      dsimp only
      unfold goAtoi
      dsimp only
      rw [if_pos hval]
      have hbInt : (natOfDigits (d :: ds') : Int) * (multNatOf u0 : Int) ≤
          9223372036854775807 := by exact_mod_cast hbound
      cases u0 with
      | day =>
        simp only [multNatOf] at hbInt ⊢
        rw [Option.some_inj]
        simp only [i64mul, wrap64, nanosPerHour]
        push_cast at hbInt ⊢
        omega
      | week =>
        simp only [multNatOf] at hbInt ⊢
        rw [Option.some_inj]
        simp only [i64mul, wrap64, nanosPerHour]
        push_cast at hbInt ⊢
        omega
      | month =>
        simp only [multNatOf] at hbInt ⊢
        rw [Option.some_inj]
        simp only [i64mul, wrap64, nanosPerHour]
        push_cast at hbInt ⊢
        omega

/-- The failure-path lemma for C6: a text with no digit at all that is not
one of the six literal phrases does not parse. -/
theorem parsePauseDuration_none_of_no_digit (s : String)
    (hnd : ∀ c ∈ s.data, c.isDigit = false)
    (hnl : String.mk (lowerL (trimGoL s.data)) ∉
      (["today", "tomorrow", "this week", "next week", "this month",
        "next month"] : List String)) :
    parsePauseDuration s = none := by
  have hld := no_digit_lowerL_trimGoL s.data hnd
  have h1w : String.mk (lowerL (trimGoL s.data)) ≠ "1 week" := by
    intro he
    have hdata : lowerL (trimGoL s.data) = "1 week".data := by
      have := congrArg String.data he
      simpa using this
    have hm : '1' ∈ lowerL (trimGoL s.data) := by
      rw [hdata]
      decide
    have := hld '1' hm
    exact absurd this (by decide)
  have h1m : String.mk (lowerL (trimGoL s.data)) ≠ "1 month" := by
    intro he
    have hdata : lowerL (trimGoL s.data) = "1 month".data := by
      have := congrArg String.data he
      simpa using this
    have hm : '1' ∈ lowerL (trimGoL s.data) := by
      rw [hdata]
      decide
    have := hld '1' hm
    exact absurd this (by decide)
  simp only [List.mem_cons, List.mem_singleton, not_or] at hnl
  obtain ⟨ht1, ht2, ht3, ht4, ht5, ht6, -⟩ := hnl
  unfold parsePauseDuration
  dsimp only
  rw [if_neg ht1, if_neg ht2, if_neg ht3, if_neg h1w, if_neg ht4, if_neg ht5,
    if_neg h1m, if_neg ht6]
  have hscan : scanNumUnit (lowerL (trimGoL s.data)) = none :=
    scanNumUnitF_none _ _ hld
  rw [hscan]

/-- Claim C6 (counterexample): the number-unit regexp is searched for
anywhere in the text (it is unanchored), so the phrasing "x3dayx" — neither
a literal phrase nor a `<number><unit>` text — parses successfully to 3 days
instead of failing as the claim requires. -/
theorem c6_counterexample :
    parsePauseDuration "x3dayx" = some 259200000000000 := by
  decide

/-- Claim C6 (amended): the literal-phrase table holds exactly; a digit run
followed by optional spaces and a unit spelling parses to
(value of the digits) x (86400/604800/2592000 seconds in nanoseconds), for
values whose product fits in a 64-bit duration; and a text containing no
digit that is not a literal phrase is an unparseable-duration failure.
(Amended from the claim: the code searches for the number-unit pattern as an
unanchored substring, so only digit-free other phrasings are guaranteed to
fail, and the multiplication is subject to the int64 range.) -/
theorem c6_pause_duration_amended :
    (∀ q ∈ pauseLiteralTable, parsePauseDuration q.1 = some q.2) ∧
    (∀ (ds sep : List Char) (q : String × Nat), q ∈ pauseUnitTable →
      ds ≠ [] → (∀ c ∈ ds, c.isDigit = true) → (∀ c ∈ sep, c = ' ') →
      natOfDigits ds * q.2 ≤ 9223372036854775807 →
      parsePauseDuration (String.mk (ds ++ sep ++ q.1.data)) =
        some ((natOfDigits ds : Int) * (q.2 : Int))) ∧
    (∀ s : String, (∀ c ∈ s.data, c.isDigit = false) →
      String.mk (lowerL (trimGoL s.data)) ∉
        (["today", "tomorrow", "this week", "next week", "this month",
          "next month"] : List String) →
      parsePauseDuration s = none) := by
  refine ⟨by decide, ?_, parsePauseDuration_none_of_no_digit⟩
  intro ds sep q hq hds hdig hsep hbound
  fin_cases hq
  · exact parsePauseDuration_numunit ds sep "day".data .day hds hdig hsep
      (by decide)
      (by intro c hc; simp at hc; subst hc; exact ⟨by decide, by decide⟩)
      (by decide)
      (by intro c hc; simp at hc; subst hc; decide)
      (by decide) hbound
  · exact parsePauseDuration_numunit ds sep "days".data .day hds hdig hsep
      (by decide)
      (by intro c hc; simp at hc; subst hc; exact ⟨by decide, by decide⟩)
      (by decide)
      (by intro c hc; simp at hc; subst hc; decide)
      (by decide) hbound
  · exact parsePauseDuration_numunit ds sep "week".data .week hds hdig hsep
      (by decide)
      (by intro c hc; simp at hc; subst hc; exact ⟨by decide, by decide⟩)
      (by decide)
      (by intro c hc; simp at hc; subst hc; decide)
      (by decide) hbound
  · exact parsePauseDuration_numunit ds sep "weeks".data .week hds hdig hsep
      (by decide)
      (by intro c hc; simp at hc; subst hc; exact ⟨by decide, by decide⟩)
      (by decide)
      (by intro c hc; simp at hc; subst hc; decide)
      (by decide) hbound
  · exact parsePauseDuration_numunit ds sep "month".data .month hds hdig hsep
      (by decide)
      (by intro c hc; simp at hc; subst hc; exact ⟨by decide, by decide⟩)
      (by decide)
      (by intro c hc; simp at hc; subst hc; decide)
      (by decide) hbound
  · exact parsePauseDuration_numunit ds sep "months".data .month hds hdig hsep
      (by decide)
      (by intro c hc; simp at hc; subst hc; exact ⟨by decide, by decide⟩)
      (by decide)
      (by intro c hc; simp at hc; subst hc; decide)
      (by decide) hbound

/-- Witness for C6: each amended conjunct at a concrete input. -/
theorem c6_witness :
    parsePauseDuration "today" = some 86400000000000 ∧
    parsePauseDuration (String.mk (['4'] ++ [' '] ++ "days".data)) =
      some ((natOfDigits ['4'] : Int) * ((86400000000000 : Nat) : Int)) ∧
    parsePauseDuration "soon" = none :=
  ⟨c6_pause_duration_amended.1 ("today", 86400000000000) (by decide),
   c6_pause_duration_amended.2.1 ['4'] [' '] ("days", 86400000000000)
     (by decide) (by decide) (by decide) (by decide) (by decide),
   c6_pause_duration_amended.2.2 "soon" (by decide) (by decide)⟩
end WDYGD
